import Mathlib

/-!
Verification of the timing-repair core of the LangDocMAUS repository.

The two scripts under study operate on a hierarchical annotation document:
`flexibilize_imported_toolbox_in_elan.py` (the Anchor Disambiguator, together
with the annotation-graph predecessor walk), and
`import_wordtimes_from_toolbox_to_elan.py` (the External Timing Importer and
the tabular-source parser `extractWordTimes`).

The shallow embedding below mirrors those scripts: dictionaries become
association lists, time-slot ids become the numbers obtained by stripping the
"ts" prefix (the scripts themselves do this via `remove_ts`), time values of
the disambiguator become rationals (Python `/` is true division), time values
of the importer become integers (milliseconds), and every fatal `sys.exit` /
uncaught exception becomes an `Except.error`.
-/

namespace LangDoc

/-- Association-list lookup, mirroring Python dictionary access `m[k]`. -/
def lookupKey {β : Type} (k : Nat) : List (Nat × β) → Option β
  | [] => none
  | (k', v) :: rest => if k = k' then some v else lookupKey k rest

/-- Association-list lookup with `String` keys. -/
def lookupStr {β : Type} (k : String) : List (String × β) → Option β
  | [] => none
  | (k', v) :: rest => if k = k' then some v else lookupStr k rest

/-- Association-list insertion, mirroring Python dictionary assignment
`m[k] = v` (replace in place if present, else append). -/
def insertKey {β : Type} (k : Nat) (v : β) : List (Nat × β) → List (Nat × β)
  | [] => [(k, v)]
  | (k', v') :: rest => if k = k' then (k, v) :: rest else (k', v') :: insertKey k v rest

/-- Association-list insertion with `String` keys. -/
def insertStr {β : Type} (k : String) (v : β) : List (String × β) → List (String × β)
  | [] => [(k, v)]
  | (k', v') :: rest => if k = k' then (k, v) :: rest else (k', v') :: insertStr k v rest

instance {e a : Type} [DecidableEq e] [DecidableEq a] : DecidableEq (Except e a) :=
  fun x y =>
    match x, y with
    | .ok u, .ok v =>
      if h : u = v then .isTrue (by rw [h])
      else .isFalse (fun hc => by injection hc; contradiction)
    | .error u, .error v =>
      if h : u = v then .isTrue (by rw [h])
      else .isFalse (fun hc => by injection hc; contradiction)
    | .ok _, .error _ => .isFalse (fun hc => by injection hc)
    | .error _, .ok _ => .isFalse (fun hc => by injection hc)

/-- Role of an annotation with respect to the containment-constrained tier:
the scripts tag every tuple in `time_slots_to_annotations` with the string
`"parent"` or `"daughter"`. -/
inductive Role where
  | parent : Role
  | daughter : Role
deriving DecidableEq, Repr

/-- Which boundary of the annotation references the time slot: the scripts use
the strings `"start"` and `"end"`. -/
inductive Bnd where
  | startB : Bnd
  | endB : Bnd
deriving DecidableEq, Repr

/-- One entry of `time_slots_to_annotations`: an
`(annotation id, role, boundary)` tuple. -/
structure Tup where
  ann : Nat
  role : Role
  b : Bnd
deriving DecidableEq, Repr

/-- The boundary references of one annotation: its start and end time-slot ids
(`get_start_time_slot` / `get_end_time_slot`). -/
structure AnnB where
  sSlot : Nat
  eSlot : Nat
deriving DecidableEq, Repr

/-- Set the start slot of an annotation (`set_start_time_slot`). -/
def setS (n : Nat) (a : AnnB) : AnnB := { a with sSlot := n }

/-- Set the end slot of an annotation (`set_end_time_slot`). -/
def setE (n : Nat) (a : AnnB) : AnnB := { a with eSlot := n }

/-- Read the boundary `b` of an annotation. -/
def getB (b : Bnd) (a : AnnB) : Nat :=
  match b with
  | .startB => a.sSlot
  | .endB => a.eSlot

/-- Set the boundary `b` of an annotation. -/
def setB (b : Bnd) (n : Nat) (a : AnnB) : AnnB :=
  match b with
  | .startB => setS n a
  | .endB => setE n a

/-- In-place mutation of one annotation object, as the script does through
`elan_file.get_annotation_by_id(...)` followed by a setter. -/
def updAnn (id : Nat) (f : AnnB → AnnB) : List (Nat × AnnB) → List (Nat × AnnB) :=
  List.map fun p => if p.1 = id then (p.1, f p.2) else p

/-- The read-only indices built by the graph-building phase of
`flexibilize_imported_toolbox_in_elan.py` (lines 93-381):
`time_slots_to_annotations`, `annotation_to_parent_annotation`,
`original_annotation_times`, `parent_annotation_to_daughter_annotations`
and `daughter_positions`. -/
structure DisGraph where
  slotAnns : List (Nat × List Tup)
  annParent : List (Nat × Nat)
  origTimes : List (Nat × (ℚ × ℚ))
  parentDaughters : List (Nat × List Nat)
  positions : List (Nat × Nat)
deriving Repr

/-- An input document for the disambiguation loop: the graph indices, the
original time order (slot id together with its optional time value), and the
mutable store of annotation boundary references. -/
structure DisDoc where
  graph : DisGraph
  timeOrder : List (Nat × Option ℚ)
  annStore : List (Nat × AnnB)
deriving Repr

/-- The mutable state of the disambiguation loop (lines 405-658): the running
`offset`, the `time_order_mapping`, the `new_time_order` in emission order, and
the annotation store whose boundary references are rebound in place. -/
structure DState where
  offset : Nat
  mapping : List (Nat × Nat)
  newOrder : List (Nat × Option ℚ)
  anns : List (Nat × AnnB)
deriving DecidableEq, Repr

/-- One iteration of the main disambiguation loop of
`flexibilize_imported_toolbox_in_elan.py` (lines 409-658), processing a single
time slot of the original time order.

* two tuples `(parent, X), (daughter, X)` (lines 427-487): emit two fresh slots
  `n + offset` and `n + offset + 1`, both carrying the original value, rebind
  the parent boundary to the first and the daughter boundary to the second,
  increase the offset by one;
* two tuples `(daughter, end), (daughter, start)` (lines 490-588): interpolate.
  The source computes `second_annotation_start_time = parent_start +
  daughter_length * (position + 1) + 1` at line 564 but never uses it: both
  `add_time_slot` calls at lines 573 and 584 pass `first_annotation_end_time`;
* one `(parent, _)` tuple (lines 597-634): re-emit a single fresh slot with the
  original value;
* a single daughter tuple or any other multiplicity is a fatal error
  (lines 637-647), modelled as `Except.error` like every `sys.exit`;
* a slot with no tuples at all (lines 649-658): record the renumbered id in the
  mapping but add nothing to the new time order. -/
def stepSlot (G : DisGraph) (s : DState) (slot : Nat × Option ℚ) : Except String DState :=
  match lookupKey slot.1 G.slotAnns with
  | some [t0, t1] =>
    if t0.role = .parent ∧ t1.role = .daughter then
      match lookupKey t0.ann s.anns, lookupKey t1.ann s.anns with
      | some pa, some da =>
        match t0.b, t1.b with
        | .startB, .startB =>
          if pa.sSlot = da.sSlot then
            .ok { offset := s.offset + 1,
                  mapping := insertKey slot.1 (slot.1 + s.offset) s.mapping,
                  newOrder := s.newOrder ++ [(slot.1 + s.offset, slot.2), (slot.1 + s.offset + 1, slot.2)],
                  anns := updAnn t1.ann (setS (slot.1 + s.offset + 1)) (updAnn t0.ann (setS (slot.1 + s.offset)) s.anns) }
          else .error "Parent and first daughter annotation did not share the same start time slot"
        | .endB, .endB =>
          if pa.eSlot = da.eSlot then
            .ok { offset := s.offset + 1,
                  mapping := insertKey slot.1 (slot.1 + s.offset) s.mapping,
                  newOrder := s.newOrder ++ [(slot.1 + s.offset, slot.2), (slot.1 + s.offset + 1, slot.2)],
                  anns := updAnn t1.ann (setE (slot.1 + s.offset + 1)) (updAnn t0.ann (setE (slot.1 + s.offset)) s.anns) }
          else .error "Parent and last daughter annotation did not share the same end time slot"
        | _, _ => .error "Something went wrong: Parent and daughter annotation do not share the same kind of time slot"
      | _, _ => .error "annotation lookup failed"
    else if t0.role = .daughter ∧ t0.b = .endB ∧ t1.role = .daughter ∧ t1.b = .startB then
      match lookupKey t0.ann G.annParent with
      | none => .error "Cannot determine parent annotation for annotation"
      | some pid =>
        match lookupKey pid G.origTimes with
        | none => .error "Could not determine original annotation times for parent annotation"
        | some pt =>
          match lookupKey pid G.parentDaughters with
          | none => .error "Cannot determine the number of daughter annotations for annotation"
          | some ds =>
            match lookupKey t0.ann G.positions with
            | none => .error "Could not determine position of daughter annotation"
            | some pos =>
              match lookupKey t0.ann s.anns, lookupKey t1.ann s.anns with
              | some _, some _ =>
                .ok { offset := s.offset + 1,
                      mapping := insertKey slot.1 (slot.1 + s.offset) s.mapping,
                      newOrder := s.newOrder ++
                        [(slot.1 + s.offset, some (pt.1 + (pt.2 - pt.1) / (ds.length : ℚ) * ((pos : ℚ) + 1))),
                         (slot.1 + s.offset + 1, some (pt.1 + (pt.2 - pt.1) / (ds.length : ℚ) * ((pos : ℚ) + 1)))],
                      anns := updAnn t1.ann (setS (slot.1 + s.offset + 1)) (updAnn t0.ann (setE (slot.1 + s.offset)) s.anns) }
              | _, _ => .error "annotation lookup failed"
    else .error "Unknown relationship between two annotations sharing a time slot."
  | some [t0] =>
    if t0.role = .parent then
      match lookupKey t0.ann s.anns with
      | some _ =>
        match t0.b with
        | .startB =>
          .ok { s with mapping := insertKey slot.1 (slot.1 + s.offset) s.mapping,
                       newOrder := s.newOrder ++ [(slot.1 + s.offset, slot.2)],
                       anns := updAnn t0.ann (setS (slot.1 + s.offset)) s.anns }
        | .endB =>
          .ok { s with mapping := insertKey slot.1 (slot.1 + s.offset) s.mapping,
                       newOrder := s.newOrder ++ [(slot.1 + s.offset, slot.2)],
                       anns := updAnn t0.ann (setE (slot.1 + s.offset)) s.anns }
      | none => .error "annotation lookup failed"
    else .error "Only one annotation found for time slot."
  | some _ => .error "Incorrect number of relevant annotations found for time slot."
  | none => .ok { s with mapping := insertKey slot.1 (slot.1 + s.offset) s.mapping }

/-- The whole disambiguation pass: fold the per-slot step over the original
time order, starting from offset 0, an empty mapping, an empty new time order
and the document's annotation store. -/
def runDisamb (doc : DisDoc) : Except String DState :=
  doc.timeOrder.foldlM (stepSlot doc.graph) ⟨0, [], [], doc.annStore⟩

/-- The scenario of the specification: a parent annotation `ann10` with start
1000 (slot `ts1`) and end 5000 (slot `ts3`) and two daughters `ann1`, `ann2`
sharing the parent boundary slots and one valueless internal slot `ts2`. -/
def doc1 : DisDoc :=
  { graph :=
      { slotAnns := [(1, [⟨10, .parent, .startB⟩, ⟨1, .daughter, .startB⟩]),
                     (2, [⟨1, .daughter, .endB⟩, ⟨2, .daughter, .startB⟩]),
                     (3, [⟨10, .parent, .endB⟩, ⟨2, .daughter, .endB⟩])],
        annParent := [(1, 10), (2, 10)],
        origTimes := [(10, (1000, 5000))],
        parentDaughters := [(10, [1, 2])],
        positions := [(1, 0), (2, 1)] },
    timeOrder := [(1, some 1000), (2, none), (3, some 5000)],
    annStore := [(10, ⟨1, 3⟩), (1, ⟨1, 2⟩), (2, ⟨2, 3⟩)] }

/-- The state produced by disambiguating `doc1`: six fresh slots, the two
interpolated internal slots `ts3`/`ts4` both carrying the value 3000. -/
def disRes1 : DState :=
  { offset := 3,
    mapping := [(1, 1), (2, 3), (3, 5)],
    newOrder := [(1, some 1000), (2, some 1000), (3, some 3000), (4, some 3000),
                 (5, some 5000), (6, some 5000)],
    anns := [(10, ⟨1, 5⟩), (1, ⟨2, 3⟩), (2, ⟨4, 6⟩)] }

/-- Claim C1 (code bug): on the specification's own scenario (parent 1000-5000
with two daughters), the disambiguator emits the end-of-first-daughter anchor
with value `parent_start + (parent_duration / number_of_daughters) *
(position + 1) = 3000` as claimed, but the start-of-second-daughter anchor
carries the very same value 3000 rather than 3001: the source computes
`second_annotation_start_time = ... + 1` at line 564 of
`flexibilize_imported_toolbox_in_elan.py` and then passes
`first_annotation_end_time` to both `add_time_slot` calls (lines 573, 584), so
the two synthesized values are neither distinct nor ordered. -/
theorem disamb_internal_anchor_second_value_not_offset :
    runDisamb doc1 = Except.ok disRes1 ∧
    lookupKey 3 disRes1.newOrder = some (some 3000) ∧
    lookupKey 4 disRes1.newOrder = some (some 3000) ∧
    lookupKey 4 disRes1.newOrder ≠ some (some 3001) := by
  refine ⟨?_, ?_, ?_, ?_⟩
  · norm_num +decide [runDisamb, doc1, disRes1, List.foldlM, stepSlot, lookupKey,
      insertKey, updAnn, setS, setE, Except.bind, bind, pure, Except.pure]
  · norm_num [disRes1, lookupKey]
  · norm_num [disRes1, lookupKey]
  · norm_num [disRes1, lookupKey]

/-- `doc1` after disambiguation, re-packaged as an input document: every slot
is now referenced by exactly one `(annotation, role, boundary)` tuple. -/
def doc3 : DisDoc :=
  { graph :=
      { slotAnns := [(1, [⟨10, .parent, .startB⟩]), (2, [⟨1, .daughter, .startB⟩]),
                     (3, [⟨1, .daughter, .endB⟩]), (4, [⟨2, .daughter, .startB⟩]),
                     (5, [⟨10, .parent, .endB⟩]), (6, [⟨2, .daughter, .endB⟩])],
        annParent := [(1, 10), (2, 10)],
        origTimes := [(10, (1000, 5000))],
        parentDaughters := [(10, [1, 2])],
        positions := [(1, 0), (2, 1)] },
    timeOrder := [(1, some 1000), (2, some 1000), (3, some 3000), (4, some 3000),
                  (5, some 5000), (6, some 5000)],
    annStore := [(10, ⟨1, 5⟩), (1, ⟨2, 3⟩), (2, ⟨4, 6⟩)] }

/-- Claim C3, counterexample: re-running the disambiguator on the already
fully disambiguated document `doc3` (no anchor shared by two distinct
annotations) does not leave the document unchanged — it aborts: the first slot
referenced by a single daughter tuple falls into the fatal
"Only one annotation found for time slot." branch (lines 637-640 of
`flexibilize_imported_toolbox_in_elan.py`). -/
theorem disamb_rerun_aborts_on_doc3 :
    runDisamb doc3 = Except.error "Only one annotation found for time slot." := by
  norm_num +decide [runDisamb, doc3, List.foldlM, stepSlot, lookupKey,
    insertKey, updAnn, setS, setE, Except.bind, bind, pure, Except.pure]

/-- Claim C9: a time slot of the original time order that no annotation of a
containment-constrained tier or its parent tier references (no entry in
`time_slots_to_annotations`) only gets a renumbered id recorded in
`time_order_mapping`; nothing is added to `new_time_order`, the offset and the
annotation boundaries are untouched, so the slot is absent from the serialized
output (lines 649-658 of `flexibilize_imported_toolbox_in_elan.py`). -/
theorem disamb_unreferenced_slot_dropped (G : DisGraph) (s : DState) (n : Nat)
    (v : Option ℚ) (h : lookupKey n G.slotAnns = none) :
    stepSlot G s (n, v) =
      Except.ok { s with mapping := insertKey n (n + s.offset) s.mapping } := by
  simp [stepSlot, h]

/-- Witness for claim C9: slot `ts9` of `doc1` is referenced by no annotation;
processing it records the mapping entry and emits no new slot. -/
theorem disamb_unreferenced_slot_dropped_witness :
    stepSlot doc1.graph ⟨0, [], [], doc1.annStore⟩ (9, some 7) =
      Except.ok ⟨0, insertKey 9 (9 + 0) [], [], doc1.annStore⟩ :=
  disamb_unreferenced_slot_dropped doc1.graph ⟨0, [], [], doc1.annStore⟩ 9 (some 7)
    (by decide)

/-- Claim C7: a slot referenced by exactly one `(parent, b)` tuple and one
`(daughter, b)` tuple with the same boundary `b` (and passing the sanity check
that the two annotations really share that boundary slot) makes the
disambiguator emit two new anchors at the consecutive positions `n + offset`
and `n + offset + 1`, both carrying the original time value `v`; the parent's
boundary is rebound to the first, the daughter's boundary to the second, and
the running offset advances by one (lines 427-487 of
`flexibilize_imported_toolbox_in_elan.py`). -/
theorem setB_start_eq (n : Nat) : setB Bnd.startB n = setS n := rfl

theorem setB_end_eq (n : Nat) : setB Bnd.endB n = setE n := rfl

theorem disamb_shared_parent_daughter_edge (G : DisGraph) (s : DState) (n : Nat)
    (v : Option ℚ) (p d : Nat) (b : Bnd) (pa da : AnnB)
    (hl : lookupKey n G.slotAnns = some [⟨p, .parent, b⟩, ⟨d, .daughter, b⟩])
    (hp : lookupKey p s.anns = some pa) (hd : lookupKey d s.anns = some da)
    (hsan : getB b pa = getB b da) :
    stepSlot G s (n, v) = Except.ok
      { offset := s.offset + 1,
        mapping := insertKey n (n + s.offset) s.mapping,
        newOrder := s.newOrder ++ [(n + s.offset, v), (n + s.offset + 1, v)],
        anns := updAnn d (setB b (n + s.offset + 1))
                  (updAnn p (setB b (n + s.offset)) s.anns) } := by
  cases b <;>
    simp only [getB] at hsan <;>
    simp [stepSlot, hl, hp, hd, hsan, setB_start_eq, setB_end_eq]

/-- Witness for claim C7: the first slot of `doc1`, shared by the parent's and
the first daughter's start boundary. -/
theorem disamb_shared_parent_daughter_edge_witness :
    stepSlot doc1.graph ⟨0, [], [], doc1.annStore⟩ (1, some 1000) = Except.ok
      { offset := 0 + 1,
        mapping := insertKey 1 (1 + 0) [],
        newOrder := [] ++ [(1 + 0, some 1000), (1 + 0 + 1, some 1000)],
        anns := updAnn 1 (setB .startB (1 + 0 + 1))
                  (updAnn 10 (setB .startB (1 + 0)) doc1.annStore) } :=
  disamb_shared_parent_daughter_edge doc1.graph ⟨0, [], [], doc1.annStore⟩ 1
    (some 1000) 10 1 .startB ⟨1, 3⟩ ⟨1, 2⟩ (by decide) (by decide) (by decide) rfl

/-- Shape of a successful disambiguation step: it emits zero, one or two new
time slots; a single emission carries id `n + offset` and keeps the offset, a
double emission carries the consecutive ids `n + offset` and `n + offset + 1`
and advances the offset by one. -/
theorem stepSlot_shape (G : DisGraph) (s s' : DState) (n : Nat) (v : Option ℚ)
    (h : stepSlot G s (n, v) = Except.ok s') :
    (s'.newOrder = s.newOrder ∧ s'.offset = s.offset) ∨
    (∃ w, s'.newOrder = s.newOrder ++ [(n + s.offset, w)] ∧ s'.offset = s.offset) ∨
    (∃ w1 w2, s'.newOrder = s.newOrder ++ [(n + s.offset, w1), (n + s.offset + 1, w2)] ∧
      s'.offset = s.offset + 1) := by
  unfold stepSlot at h
  repeat' split at h
  all_goals try simp at h
  all_goals subst h
  all_goals first
    | exact Or.inl ⟨rfl, rfl⟩
    | exact Or.inr (Or.inl ⟨_, rfl, rfl⟩)
    | exact Or.inr (Or.inr ⟨_, _, rfl, rfl⟩)

/-- Invariant-carrying induction over the disambiguation fold: if the original
slot ids are strictly increasing, every id already emitted is below
`next slot id + offset`, and the emitted ids are so far strictly increasing,
then the ids emitted by the whole remaining fold are strictly increasing. -/
theorem runAux_pairwise (G : DisGraph) :
    ∀ (slots : List (Nat × Option ℚ)) (s res : DState),
      List.Pairwise (fun a b => a < b) (slots.map Prod.fst) →
      (∀ m ∈ slots.map Prod.fst, ∀ i ∈ s.newOrder.map Prod.fst, i < m + s.offset) →
      List.Pairwise (fun a b => a < b) (s.newOrder.map Prod.fst) →
      slots.foldlM (stepSlot G) s = Except.ok res →
      List.Pairwise (fun a b => a < b) (res.newOrder.map Prod.fst)
  | [], s, res, _, _, hpw, hrun => by
      rw [List.foldlM_nil] at hrun
      injection hrun with hrun
      subst hrun
      exact hpw
  | (n, v) :: rest, s, res, hsort, hbound, hpw, hrun => by
      rw [List.foldlM_cons] at hrun
      rcases hs : stepSlot G s (n, v) with e | s₁
      · rw [hs] at hrun
        simp [bind, Except.bind] at hrun
      · rw [hs] at hrun
        simp only [bind, Except.bind] at hrun
        have hshape := stepSlot_shape G s s₁ n v hs
        rw [List.map_cons] at hsort
        have hsort' := (List.pairwise_cons.mp hsort).2
        have hhead : ∀ m ∈ rest.map Prod.fst, n < m :=
          (List.pairwise_cons.mp hsort).1
        have hboundn : ∀ i ∈ s.newOrder.map Prod.fst, i < n + s.offset := by
          intro i hi
          exact hbound n (by simp) i hi
      -- re-establish the two invariants for the post-step state
        have hpw₁ : List.Pairwise (fun a b => a < b) (s₁.newOrder.map Prod.fst) := by
          rcases hshape with ⟨ho, _⟩ | ⟨w, ho, _⟩ | ⟨w1, w2, ho, _⟩
          · rw [ho]; exact hpw
          · rw [ho]
            simp only [List.map_append, List.pairwise_append]
            refine ⟨hpw, by simp, ?_⟩
            intro a ha b hb
            simp at hb
            subst hb
            exact hboundn a ha
          · rw [ho]
            simp only [List.map_append, List.pairwise_append]
            refine ⟨hpw, by simp, ?_⟩
            intro a ha b hb
            simp at hb
            rcases hb with hb | hb <;> subst hb
            · exact hboundn a ha
            · exact Nat.lt_succ_of_lt (hboundn a ha)
        have hbound₁ : ∀ m ∈ rest.map Prod.fst, ∀ i ∈ s₁.newOrder.map Prod.fst,
            i < m + s₁.offset := by
          intro m hm i hi
          have hnm := hhead m hm
          rcases hshape with ⟨ho, hoff⟩ | ⟨w, ho, hoff⟩ | ⟨w1, w2, ho, hoff⟩
          · rw [ho] at hi
            rw [hoff]
            exact hbound m (by simp [hm]) i hi
          · rw [ho] at hi
            rw [hoff]
            simp only [List.map_append, List.mem_append] at hi
            rcases hi with hi | hi
            · exact hbound m (by simp [hm]) i hi
            · simp at hi
              subst hi
              omega
          · rw [ho] at hi
            rw [hoff]
            simp only [List.map_append, List.mem_append] at hi
            rcases hi with hi | hi
            · have := hbound m (by simp [hm]) i hi
              omega
            · simp at hi
              rcases hi with hi | hi <;> subst hi <;> omega
        exact runAux_pairwise G rest s₁ res hsort' hbound₁ hpw₁ hrun

/-- Claim C6: when the original time order lists its slot ids in strictly
increasing numeric order (anchor A before anchor B), every slot the
disambiguator synthesizes carries a numeric id strictly larger than every
previously emitted one — in particular all slots synthesized from A sort
before all slots synthesized from B in the output time order, the running
offset being the mechanism (lines 405-487 of
`flexibilize_imported_toolbox_in_elan.py`). -/
theorem disamb_order_preserved (doc : DisDoc) (res : DState)
    (hsort : List.Pairwise (fun a b => a < b) (doc.timeOrder.map Prod.fst))
    (hrun : runDisamb doc = Except.ok res) :
    List.Pairwise (fun a b => a < b) (res.newOrder.map Prod.fst) :=
  runAux_pairwise doc.graph doc.timeOrder ⟨0, [], [], doc.annStore⟩ res hsort
    (by simp) (by simp) hrun

/-- A successful association-list lookup returns an entry of the list. -/
theorem lookupKey_mem {β : Type} (n : Nat) (l : List (Nat × β)) (v : β)
    (h : lookupKey n l = some v) : (n, v) ∈ l := by
  induction l with
  | nil => simp [lookupKey] at h
  | cons hd tl ih =>
    rcases hd with ⟨k, w⟩
    by_cases hk : n = k
    · subst hk
      simp [lookupKey] at h
      subst h
      exact List.mem_cons_self _ _
    · simp [lookupKey, hk] at h
      exact List.mem_cons_of_mem _ (ih h)

/-- Looking a key up in a list mapped by a key-preserving function. -/
theorem lookupKey_map_snd {β : Type} (g : Nat → β → β) (a : Nat)
    (st : List (Nat × β)) :
    lookupKey a (st.map fun p => (p.1, g p.1 p.2)) =
      (lookupKey a st).map (g a) := by
  induction st with
  | nil => rfl
  | cons hd tl ih =>
    rcases hd with ⟨k, b⟩
    by_cases ha : a = k
    · subst ha
      simp [lookupKey]
    · simp [lookupKey, ha, ih]

/-- `updAnn` rewrites only the second components of the store. -/
theorem updAnn_eq_map (i : Nat) (f : AnnB → AnnB) (st : List (Nat × AnnB)) :
    updAnn i f st = st.map fun p => (p.1, if p.1 = i then f p.2 else p.2) := by
  unfold updAnn
  congr 1
  funext p
  by_cases h : p.1 = i <;> simp [h]

/-- Rebinding one annotation's boundary leaves the set of annotation ids of
the store unchanged. -/
theorem lookupKey_updAnn_isSome (a i : Nat) (f : AnnB → AnnB)
    (st : List (Nat × AnnB)) :
    (lookupKey a (updAnn i f st)).isSome = (lookupKey a st).isSome := by
  rw [updAnn_eq_map, lookupKey_map_snd (fun k x => if k = i then f x else x)]
  cases lookupKey a st <;> rfl

/-- Induction core for the amended claim C3: on a document whose relevant
slots each carry exactly one referencing tuple (an already fully disambiguated
document), the disambiguation fold aborts with the fatal "Only one annotation
found for time slot." message as soon as some slot of the remaining time order
is referenced by a single daughter tuple. -/
theorem runAux_singleton_daughter_fatal (G : DisGraph) (A0 : List (Nat × AnnB)) :
    ∀ (slots : List (Nat × Option ℚ)) (s : DState),
      (∀ p ∈ G.slotAnns, (p.2 : List Tup).length = 1) →
      (∀ p ∈ G.slotAnns, ∀ t ∈ (p.2 : List Tup), t.role = Role.parent →
        (lookupKey t.ann A0).isSome = true) →
      (∀ a, (lookupKey a s.anns).isSome = (lookupKey a A0).isSome) →
      (∃ q ∈ slots, ∃ t, lookupKey q.1 G.slotAnns = some [t] ∧
        t.role = Role.daughter) →
      slots.foldlM (stepSlot G) s =
        Except.error "Only one annotation found for time slot."
  | [], s, _, _, _, hex => by simp at hex
  | (n, v) :: rest, s, hsing, hpar, hk, hex => by
      rw [List.foldlM_cons]
      rcases hl : lookupKey n G.slotAnns with _ | l
      · have hstep : stepSlot G s (n, v) =
            Except.ok { s with mapping := insertKey n (n + s.offset) s.mapping } := by
          simp [stepSlot, hl]
        rw [hstep]
        simp only [bind, Except.bind]
        refine runAux_singleton_daughter_fatal G A0 rest _ hsing hpar hk ?_
        rcases hex with ⟨q, hq, t, hlq, hrq⟩
        rcases List.mem_cons.mp hq with hq | hq
        · rw [hq] at hlq
          rw [hlq] at hl
          simp at hl
        · exact ⟨q, hq, t, hlq, hrq⟩
      · have hone := hsing (n, l) (lookupKey_mem n G.slotAnns l hl)
        rcases l with _ | ⟨t, l2⟩
        · simp at hone
        · rcases l2 with _ | _
          · rcases hrole : t.role with _ | _
            · -- singleton parent tuple: the step succeeds
              have hsome : (lookupKey t.ann s.anns).isSome = true := by
                rw [hk]
                exact hpar (n, [t]) (lookupKey_mem n G.slotAnns [t] hl) t
                  (List.mem_singleton_self t) hrole
              obtain ⟨pa, hpa⟩ : ∃ pa, lookupKey t.ann s.anns = some pa := by
                cases hq : lookupKey t.ann s.anns with
                | none => rw [hq] at hsome; simp at hsome
                | some pa => exact ⟨pa, rfl⟩
              have hexr : ∃ q ∈ rest, ∃ t', lookupKey q.1 G.slotAnns = some [t'] ∧
                  t'.role = Role.daughter := by
                rcases hex with ⟨q, hq, t', hlq, hrq⟩
                rcases List.mem_cons.mp hq with hq | hq
                · rw [hq] at hlq
                  rw [hl] at hlq
                  injection hlq with hlq
                  injection hlq with hlq
                  rw [← hlq] at hrq
                  rw [hrole] at hrq
                  simp at hrq
                · exact ⟨q, hq, t', hlq, hrq⟩

              rcases hb : t.b with _ | _
              · have hstep : stepSlot G s (n, v) = Except.ok
                    { s with mapping := insertKey n (n + s.offset) s.mapping,
                             newOrder := s.newOrder ++ [(n + s.offset, v)],
                             anns := updAnn t.ann (setS (n + s.offset)) s.anns } := by
                  simp [stepSlot, hl, hrole, hpa, hb]
                rw [hstep]
                simp only [bind, Except.bind]
                refine runAux_singleton_daughter_fatal G A0 rest _ hsing hpar ?_ hexr
                intro a
                rw [lookupKey_updAnn_isSome]
                exact hk a
              · have hstep : stepSlot G s (n, v) = Except.ok
                    { s with mapping := insertKey n (n + s.offset) s.mapping,
                             newOrder := s.newOrder ++ [(n + s.offset, v)],
                             anns := updAnn t.ann (setE (n + s.offset)) s.anns } := by
                  simp [stepSlot, hl, hrole, hpa, hb]
                rw [hstep]
                simp only [bind, Except.bind]
                refine runAux_singleton_daughter_fatal G A0 rest _ hsing hpar ?_ hexr
                intro a
                rw [lookupKey_updAnn_isSome]
                exact hk a
            · -- singleton daughter tuple: the fatal branch
              have hstep : stepSlot G s (n, v) =
                  Except.error "Only one annotation found for time slot." := by
                simp [stepSlot, hl, hrole]
              rw [hstep]
              rfl
          · simp at hone

/-- Claim C3, amended: re-running the disambiguator on an already fully
disambiguated document (every relevant slot referenced by exactly one tuple)
is not a no-op; as soon as the document contains a daughter annotation — i.e.
some slot of the time order carries a single daughter tuple — the run aborts
with the fatal "Only one annotation found for time slot." branch
(lines 637-640 of `flexibilize_imported_toolbox_in_elan.py`) instead of
completing. -/
theorem disamb_rerun_fatal_with_daughter (doc : DisDoc)
    (hsing : ∀ p ∈ doc.graph.slotAnns, (p.2 : List Tup).length = 1)
    (hpar : ∀ p ∈ doc.graph.slotAnns, ∀ t ∈ (p.2 : List Tup),
      t.role = Role.parent → (lookupKey t.ann doc.annStore).isSome = true)
    (hex : ∃ q ∈ doc.timeOrder, ∃ t, lookupKey q.1 doc.graph.slotAnns = some [t] ∧
      t.role = Role.daughter) :
    runDisamb doc = Except.error "Only one annotation found for time slot." :=
  runAux_singleton_daughter_fatal doc.graph doc.annStore doc.timeOrder
    ⟨0, [], [], doc.annStore⟩ hsing hpar (fun _ => rfl) hex

/-- Witness for the amended claim C3: the disambiguated document `doc3`
satisfies the hypotheses and the re-run aborts. -/
theorem disamb_rerun_fatal_with_daughter_witness :
    runDisamb doc3 = Except.error "Only one annotation found for time slot." :=
  disamb_rerun_fatal_with_daughter doc3 (by decide) (by decide)
    ⟨(2, some 1000), List.mem_cons_of_mem _ (List.mem_cons_self _ _),
      ⟨1, .daughter, .startB⟩, by decide, rfl⟩

/-- Witness for claim C6: the run on `doc1` succeeds and its six emitted slot
ids are strictly increasing. -/
theorem disamb_order_preserved_witness :
    List.Pairwise (fun a b => a < b) (disRes1.newOrder.map Prod.fst) :=
  disamb_order_preserved doc1 disRes1 (by decide)
    (by norm_num +decide [runDisamb, doc1, disRes1, List.foldlM, stepSlot, lookupKey,
      insertKey, updAnn, setS, setE, Except.bind, bind, pure, Except.pure])

/-- The data visible to the predecessor walk of the graph-building phase
(lines 233-287 of `flexibilize_imported_toolbox_in_elan.py`):
`time_slots_to_annotations`, and for each annotation its start time slot and
start time (`get_start_time_slot` / `get_start_time`). -/
structure WalkDoc where
  slotAnns : List (Nat × List Tup)
  annStart : List (Nat × (Nat × Option ℚ))
deriving Repr

/-- The loop variables of the predecessor walk: `current_annotation_id`,
`current_annotation_start_time_slot`, `current_annotation_start_time` and
`position`. -/
structure WalkSt where
  annId : Nat
  slot : Nat
  time : Option ℚ
  pos : Nat
deriving DecidableEq, Repr

/-- One iteration of the `while current_annotation_start_time is None` body
(lines 254-272): scan the tuples registered for the current slot and jump to
any other daughter annotation whose end boundary references it, updating the
loop variables as the Python `for` does (against the evolving current id). -/
def walkIter (W : WalkDoc) (st : WalkSt) : Except String WalkSt :=
  match lookupKey st.slot W.slotAnns with
  | none => Except.ok st
  | some tups =>
    tups.foldlM
      (fun cur t =>
        if t.ann ≠ cur.annId ∧ t.role = Role.daughter ∧ t.b = Bnd.endB then
          match lookupKey t.ann W.annStart with
          | none => Except.error "unknown annotation id"
          | some q => Except.ok ⟨t.ann, q.1, q.2, cur.pos + 1⟩
        else Except.ok cur)
      st

/-- The `while` loop itself, with explicit fuel: `Except.ok none` means the
loop is still running after `fuel` iterations (the Python loop has no bound —
it either exits with a found start time or runs forever). -/
def walkLoop (W : WalkDoc) : Nat → WalkSt → Except String (Option WalkSt)
  | 0, _ => Except.ok none
  | fuel + 1, st =>
    if st.time.isSome then Except.ok (some st)
    else
      match walkIter W st with
      | Except.error e => Except.error e
      | Except.ok st' => walkLoop W fuel st'

/-- Outcome of resolving one daughter annotation: a found preceding first
daughter with its position, the fatal `RuntimeError`, or a loop that is still
running. -/
inductive WalkOutcome where
  | resolved : Nat → Nat → WalkOutcome
  | fatal : String → WalkOutcome
  | running : WalkOutcome
deriving DecidableEq, Repr

/-- The walk for one daughter annotation (lines 247-287): run the loop, then —
as the source does after the loop — raise the `RuntimeError` naming the
annotation only if the loop exited without a start time. -/
def resolveDaughter (W : WalkDoc) (fuel : Nat) (annId slot0 : Nat)
    (t0 : Option ℚ) : WalkOutcome :=
  match walkLoop W fuel ⟨annId, slot0, t0, 0⟩ with
  | Except.error e => WalkOutcome.fatal e
  | Except.ok none => WalkOutcome.running
  | Except.ok (some st) =>
    if st.time.isSome then WalkOutcome.resolved st.annId st.pos
    else WalkOutcome.fatal "Cannot find preceding first daughter annotation for annotation"

/-- A broken chain: daughter annotation `ann2` starts at the valueless slot
`ts7` and no other daughter annotation ends there, so no preceding first
daughter exists. -/
def brokenWalkDoc : WalkDoc :=
  { slotAnns := [(7, [⟨2, .daughter, .startB⟩])],
    annStart := [(2, (7, none))] }

/-- Claim C2 (code bug): on a broken chain the predecessor walk makes no
progress — the loop body returns the state unchanged, so for every amount of
fuel the loop is still `running`; in particular the run never reaches the
descriptive `RuntimeError` of line 287 (which is unreachable: the `while` loop
only exits once a start time has been found), contrary to the claimed fatal
abort. -/
theorem walk_broken_chain_never_aborts :
    ∀ fuel : Nat, resolveDaughter brokenWalkDoc fuel 2 7 none = WalkOutcome.running := by
  have hiter : walkIter brokenWalkDoc ⟨2, 7, none, 0⟩ = Except.ok ⟨2, 7, none, 0⟩ := rfl
  have hloop : ∀ fuel, walkLoop brokenWalkDoc fuel ⟨2, 7, none, 0⟩ = Except.ok none := by
    intro fuel
    induction fuel with
    | zero => rfl
    | succ k ih =>
      rw [walkLoop]
      simp only [Option.isSome_none, Bool.false_eq_true, if_false]
      rw [hiter]
      exact ih
  intro fuel
  unfold resolveDaughter
  rw [hloop fuel]

/-- Numeric value of a decimal digit character. -/
def digitVal (c : Char) : Nat := c.toNat - 48

/-- Python `int()` on a token of digits: fails unless the (nonempty) character
list consists of digits, and folds them to a number otherwise. -/
def parseNatDigits (l : List Char) : Option Nat :=
  if l ≠ [] ∧ l.all Char.isDigit then
    some (l.foldl (fun a c => 10 * a + digitVal c) 0)
  else none

/-- The millisecond conversion of `import_wordtimes_from_toolbox_to_elan.py`
lines 387-388: `int(re.sub(r"\.", "", s))` — delete every dot character from
the decimal-second string and parse the result as an integer. -/
def convertTime (s : String) : Option Nat :=
  parseNatDigits (s.data.filter fun c => c ≠ '.')

/-- The value of a digit string under the same fold `int()` performs. -/
def digitsVal (l : List Char) : Nat :=
  l.foldl (fun a c => 10 * a + digitVal c) 0

/-- One annotation of the importer's document: its value (`get_annotation_value`,
the reference text for parents) and its boundary time-slot ids. -/
structure ImpAnn where
  val : String
  sSlot : Nat
  eSlot : Nat
deriving DecidableEq, Repr

/-- An input for the assignment loop of `import_wordtimes_from_toolbox_to_elan.py`
(lines 323-429): the annotation store, the two graph indices built by the
containment-resolution loop, the parsed tabular source
`toolbox_refs_to_word_times`, the daughter annotations of the relevant tiers
in iteration order, and the time order (slot id to optional value). -/
structure ImpDoc where
  anns : List (Nat × ImpAnn)
  annParent : List (Nat × Nat)
  parentDaughters : List (Nat × List Nat)
  toolbox : List (String × (List String × List String))
  daughters : List Nat
  pool : List (Nat × Option Int)
deriving Repr

/-- `annotation.get_start_time()` through the time order: the value of the
slot, when the slot exists and holds one. -/
def poolGet (pool : List (Nat × Option Int)) (n : Nat) : Option Int :=
  match lookupKey n pool with
  | none => none
  | some v => v

/-- `time_order.get_time_slot_by_id(id).set_time_value(v)`: fails when the
slot does not exist. -/
def poolSet (pool : List (Nat × Option Int)) (n : Nat) (v : Int) :
    Option (List (Nat × Option Int)) :=
  match pool with
  | [] => none
  | (k, w) :: rest =>
    if n = k then some ((k, some v) :: rest)
    else
      match poolSet rest n v with
      | none => none
      | some rest' => some ((k, w) :: rest')

/-- Insertion into a sorted list of numeric annotation ids. -/
def insertSorted (x : Nat) : List Nat → List Nat
  | [] => [x]
  | y :: rest => if x ≤ y then x :: y :: rest else y :: insertSorted x rest

/-- Python `sorted(ids, key=remove_ann)`: sort the daughter ids numerically. -/
def sortNat : List Nat → List Nat
  | [] => []
  | x :: rest => insertSorted x (sortNat rest)

/-- The position loop of lines 364-378: count list elements until the current
annotation id is found (`break`), each counted element increasing `position`. -/
def countUntil (x : Nat) : List Nat → Nat
  | [] => 0
  | y :: rest => if y = x then 0 else countUntil x rest + 1

/-- Processing of one daughter annotation by the assignment loop of
`import_wordtimes_from_toolbox_to_elan.py` (lines 331-429), in the source's
evaluation order: resolve the parent (line 340; a missing parent leaves the
source with stale loop variables, modelled as a fatal error), read the
parent's reference and current times (lines 347-351), compute the daughter's
position among the numerically sorted daughters of the parent (lines 364-378;
a missing daughter list is a Python `KeyError`), check the tabular source for
the reference (line 381, fatal when absent at line 426-429), check
`position < len(start_times)` (line 383, fatal at lines 415-424 when
exceeded), fetch and convert both times (lines 387-388; an out-of-range end
index or a non-numeric token is an uncaught Python exception), widen the
parent's start/end slots on violation (lines 391-405; comparing against a
`None` parent time is an uncaught `TypeError`), and finally write both
converted values onto the daughter's own slots (lines 407-413). -/
def impStep (D : ImpDoc) (pool : List (Nat × Option Int)) (annId : Nat) :
    Except String (List (Nat × Option Int)) :=
  match lookupKey annId D.anns with
  | none => Except.error "unknown annotation id"
  | some dAnn =>
    match lookupKey annId D.annParent with
    | none => Except.error "Cannot find the parent annotation of annotation"
    | some pid =>
      match lookupKey pid D.anns with
      | none => Except.error "unknown annotation id"
      | some pAnn =>
        match lookupKey pid D.parentDaughters with
        | none => Except.error "unknown parent annotation in the daughter index"
        | some ds =>
          match lookupStr pAnn.val D.toolbox with
          | none => Except.error "Could not determine annotation unit of word"
          | some wt =>
            match wt.1[countUntil annId (sortNat ds)]? with
            | none => Except.error "Could not determine position of word in parent unit"
            | some sstr =>
              match convertTime sstr with
              | none => Except.error "invalid word start time literal"
              | some sa =>
                match wt.2[countUntil annId (sortNat ds)]? with
                | none => Except.error "word end time index out of range"
                | some estr =>
                  match convertTime estr with
                  | none => Except.error "invalid word end time literal"
                  | some ea =>
                    match poolGet pool pAnn.sSlot with
                    | none => Except.error "parent annotation has no start time"
                    | some ps =>
                      match (if (sa : Int) < ps then poolSet pool pAnn.sSlot sa else some pool) with
                      | none => Except.error "missing parent start time slot"
                      | some pool1 =>
                        match poolGet pool pAnn.eSlot with
                        | none => Except.error "parent annotation has no end time"
                        | some pe =>
                          match (if (ea : Int) > pe then poolSet pool1 pAnn.eSlot ea else some pool1) with
                          | none => Except.error "missing parent end time slot"
                          | some pool2 =>
                            match poolSet pool2 dAnn.sSlot sa with
                            | none => Except.error "missing daughter start time slot"
                            | some pool3 =>
                              match poolSet pool3 dAnn.eSlot ea with
                              | none => Except.error "missing daughter end time slot"
                              | some pool4 => Except.ok pool4

/-- The whole assignment pass: fold the per-daughter step over the daughter
annotations, starting from the document's time order. -/
def runImp (D : ImpDoc) : Except String (List (Nat × Option Int)) :=
  D.daughters.foldlM (impStep D) D.pool

/-- Python `str.strip()`: drop whitespace from both ends. -/
def strip (s : String) : String :=
  String.mk (((s.data.dropWhile Char.isWhitespace).reverse.dropWhile
    Char.isWhitespace).reverse)

/-- Helper for `splitWs`, accumulating the current token reversed. -/
def splitWsAux : List Char → List Char → List String
  | [], acc => if acc.isEmpty then [] else [String.mk acc.reverse]
  | c :: rest, acc =>
    if c.isWhitespace then
      if acc.isEmpty then splitWsAux rest []
      else String.mk acc.reverse :: splitWsAux rest []
    else splitWsAux rest (c :: acc)

/-- Python `str.split()` with no argument: split on whitespace runs, no empty
tokens. -/
def splitWs (s : String) : List String := splitWsAux s.data []

/-- One line of the Toolbox file as `readToolboxFile` and the
`tier_contents_re` regular expression present it to `extractWordTimes`: the
tier marker, if any, and the matched tier contents after the marker
(`none` models a line whose contents the regular expression cannot match). -/
structure TLine where
  marker : Option String
  content : Option String
deriving DecidableEq, Repr

/-- The accumulator state of `extractWordTimes`
(`toolbox_refs_to_word_times`, `cur_utterance_id`, `cur_word_start_times`,
`cur_word_end_times`). -/
structure ExState where
  map : List (String × (List String × List String))
  curId : Option String
  starts : List String
  ends : List String
deriving DecidableEq, Repr

/-- Processing of one Toolbox line by `extractWordTimes`
(`import_wordtimes_from_toolbox_to_elan.py`, lines 116-184).  On a
reference-marker line the preceding record is saved only when both time lists
are nonempty (lines 128-141); otherwise a warning is printed and — crucially —
neither `cur_utterance_id` nor the two lists are cleared before the new
reference id is installed.  On word-start / word-end marker lines the
whitespace-split tokens are appended to the running lists. -/
def exStep (refM startM endM : String) (st : ExState) (l : TLine) :
    Except String ExState :=
  if l.marker = some refM then
    let st1 :=
      match st.curId with
      | some uid =>
        if st.starts ≠ [] ∧ st.ends ≠ [] then
          ({ map := insertStr uid (st.starts, st.ends) st.map,
             curId := none, starts := [], ends := [] } : ExState)
        else st
      | none => st
    match l.content with
    | some c => Except.ok { st1 with curId := some (strip c) }
    | none => Except.error "cannot extract the reference from the reference tier"
  else if l.marker = some startM then
    match l.content with
    | some c => Except.ok { st with starts := st.starts ++ splitWs (strip c) }
    | none => Except.error "cannot extract the word start times from the tier"
  else if l.marker = some endM then
    match l.content with
    | some c => Except.ok { st with ends := st.ends ++ splitWs (strip c) }
    | none => Except.error "cannot extract the word end times from the tier"
  else Except.ok st

/-- `extractWordTimes` (lines 100-202): fold the per-line step over the file
and flush the last record under the same both-lists-nonempty condition
(lines 186-200). -/
def extractWordTimes (refM startM endM : String) (lines : List TLine) :
    Except String (List (String × (List String × List String))) :=
  match lines.foldlM (exStep refM startM endM) ⟨[], none, [], []⟩ with
  | Except.error e => Except.error e
  | Except.ok st =>
    match st.curId with
    | some uid =>
      if st.starts ≠ [] ∧ st.ends ≠ [] then
        Except.ok (insertStr uid (st.starts, st.ends) st.map)
      else Except.ok st.map
    | none => Except.ok st.map

/-- The digit fold of `parseNatDigits` evaluated from an arbitrary
accumulator. -/
theorem foldl_digits_eq (l : List Char) :
    ∀ a : Nat, l.foldl (fun a c => 10 * a + digitVal c) a =
      a * 10 ^ l.length + l.foldl (fun a c => 10 * a + digitVal c) 0 := by
  induction l with
  | nil => intro a; simp
  | cons c t ih =>
    intro a
    simp only [List.foldl_cons, List.length_cons]
    rw [ih (10 * a + digitVal c), ih (10 * 0 + digitVal c)]
    ring

/-- A digit character is not the dot. -/
theorem digit_filter_self (l : List Char) (hl : l.all Char.isDigit = true) :
    (l.filter fun c => c ≠ '.') = l := by
  apply List.filter_eq_self.mpr
  intro c hc
  have hcd := List.all_eq_true.mp hl c hc
  simp only [ne_eq, decide_not, Bool.not_eq_true', decide_eq_false_iff_not]
  intro hceq
  subst hceq
  exact absurd hcd (by decide)

/-- Claim C8: converting a decimal-second token `d1.d2` (nonempty digit
strings around a single decimal dot) deletes the dot and parses the rest, so
the result is exactly `value(d1) * 10 ^ |d2| + value(d2)` — for three
fractional digits this is the exact integer millisecond count, with no
multiplication by a float and no rounding
(`import_wordtimes_from_toolbox_to_elan.py`, lines 387-388). -/
theorem convertTime_dot_removal (d1 d2 : List Char) (h1 : d1 ≠ []) (h2 : d2 ≠ [])
    (hd1 : d1.all Char.isDigit = true) (hd2 : d2.all Char.isDigit = true) :
    convertTime (String.mk (d1 ++ '.' :: d2)) =
      some (digitsVal d1 * 10 ^ d2.length + digitsVal d2) := by
  show parseNatDigits ((d1 ++ '.' :: d2).filter fun c => c ≠ '.') = _
  rw [List.filter_append, digit_filter_self d1 hd1]
  have hmid : (('.' :: d2).filter fun c => c ≠ '.') = d2 := by
    rw [List.filter_cons, if_neg (by decide)]
    exact digit_filter_self d2 hd2
  rw [hmid]
  unfold parseNatDigits
  rw [if_pos]
  · rw [List.foldl_append, foldl_digits_eq d2]
    rfl
  · refine ⟨by simp [h1], ?_⟩
    rw [List.all_append]
    simp [hd1, hd2]

/-- Witness for claim C8: the specification's two example tokens. -/
theorem convertTime_dot_removal_witness :
    convertTime "0.500" = some 500 ∧ convertTime "1.150" = some 1150 := by
  constructor
  · exact convertTime_dot_removal ['0'] ['5', '0', '0'] (by decide) (by decide)
      (by decide) (by decide)
  · exact convertTime_dot_removal ['1'] ['1', '5', '0'] (by decide) (by decide)
      (by decide) (by decide)

/-- A successful `Except` fold means every list element was processed
successfully from some intermediate state. -/
theorem foldlM_ok_of_mem {α σ : Type} (f : σ → α → Except String σ) :
    ∀ (l : List α) (s res : σ), l.foldlM f s = Except.ok res →
      ∀ a ∈ l, ∃ s₁ s₂, f s₁ a = Except.ok s₂
  | [], _, _, _, a, ha => by simp at ha
  | b :: rest, s, res, hrun, a, ha => by
      rw [List.foldlM_cons] at hrun
      rcases hb : f s b with e | s₁
      · rw [hb] at hrun
        simp [bind, Except.bind] at hrun
      · rw [hb] at hrun
        simp only [bind, Except.bind] at hrun
        rcases List.mem_cons.mp ha with ha | ha
        · exact ⟨s, s₁, ha ▸ hb⟩
        · exact foldlM_ok_of_mem f rest s₁ res hrun a ha

/-- A successful importer step implies in particular that the daughter's
position fits inside its reference's start-time list. -/
theorem impStep_ok_parts {D : ImpDoc} {pool pool' : List (Nat × Option Int)}
    {a : Nat} (h : impStep D pool a = Except.ok pool') :
    ∃ pid pAnn ds wt,
      lookupKey a D.annParent = some pid ∧
      lookupKey pid D.anns = some pAnn ∧
      lookupKey pid D.parentDaughters = some ds ∧
      lookupStr pAnn.val D.toolbox = some wt ∧
      countUntil a (sortNat ds) < wt.1.length := by
  unfold impStep at h
  repeat' split at h
  all_goals try simp at h
  all_goals
    refine ⟨_, _, _, _, by assumption, by assumption, by assumption, by assumption, ?_⟩
  all_goals exact (List.getElem?_eq_some_iff.mp (by assumption)).1

/-- The amended claim C4, as a predicate: every daughter annotation of the
document occupies a position strictly inside its reference's start-time list. -/
def PositionsFit (D : ImpDoc) : Prop :=
  ∀ a ∈ D.daughters, ∃ pid pAnn ds wt,
    lookupKey a D.annParent = some pid ∧
    lookupKey pid D.anns = some pAnn ∧
    lookupKey pid D.parentDaughters = some ds ∧
    lookupStr pAnn.val D.toolbox = some wt ∧
    countUntil a (sortNat ds) < wt.1.length

/-- Claim C4, amended: the importer can only complete successfully when every
daughter's position lies strictly inside its reference's start-time list — so
a document with more daughters than timing pairs (some daughter position
reaching the list length) always aborts fatally (lines 383 and 415-424 of
`import_wordtimes_from_toolbox_to_elan.py`); a document with fewer daughters
than timing pairs, however, passes the check and the surplus pairs are
silently ignored (no `M = N` equality is ever tested). -/
theorem importer_success_forces_positions_fit (D : ImpDoc)
    (pool' : List (Nat × Option Int)) (hrun : runImp D = Except.ok pool') :
    PositionsFit D := by
  intro a ha
  obtain ⟨s₁, s₂, hstep⟩ := foldlM_ok_of_mem (impStep D) D.daughters D.pool pool' hrun a ha
  exact impStep_ok_parts hstep

/-- A document with one daughter (`ann1` under parent `ann10`, reference "r")
whose tabular source carries two timing pairs: M = 1 < 2 = N. -/
def c4doc : ImpDoc :=
  { anns := [(10, ⟨"r", 100, 101⟩), (1, ⟨"w", 102, 103⟩)],
    annParent := [(1, 10)],
    parentDaughters := [(10, [1])],
    toolbox := [("r", (["0.100", "0.200"], ["0.150", "0.250"]))],
    daughters := [1],
    pool := [(100, some 0), (101, some 10000), (102, some 0), (103, some 0)] }

/-- Claim C4, counterexample: the document `c4doc` has M = 1 daughter but
N = 2 timing pairs for its reference (M ≠ N), yet the importer completes
without any error, silently ignoring the second pair — it assigns the single
daughter the first pair (100, 150) and finishes. -/
theorem importer_fewer_daughters_no_error :
    runImp c4doc =
      Except.ok [(100, some 0), (101, some 10000), (102, some 100), (103, some 150)] := by
  decide

/-- Witness for the amended claim C4: the successful run on `c4doc` indeed has
every daughter position inside the start-time list. -/
theorem importer_success_forces_positions_fit_witness : PositionsFit c4doc :=
  importer_success_forces_positions_fit c4doc
    [(100, some 0), (101, some 10000), (102, some 100), (103, some 150)] (by decide)

/-- A Toolbox file in which the first reference record accumulates word-start
times but no word-end times, followed by a complete second record. -/
def c10Lines (r1 s1 r2 s2 e2 : String) : List TLine :=
  [⟨some "ref", some r1⟩, ⟨some "WordBegin", some s1⟩,
   ⟨some "ref", some r2⟩, ⟨some "WordBegin", some s2⟩,
   ⟨some "WordEnd", some e2⟩]

/-- Claim C10: when a reference record has accumulated word-start times but no
word-end times, the record is omitted from the result map (its reference id
`r1` never appears), but the accumulated start times are not cleared — they
are prepended to the start times of the next reference record `r2`
(`import_wordtimes_from_toolbox_to_elan.py`, lines 125-141 and 186-200: the
warning branch neither resets `cur_word_start_times` nor
`cur_word_end_times`). -/
theorem extract_incomplete_record_leaks (r1 r2 s1 s2 e2 : String)
    (h1 : splitWs (strip s1) ≠ []) (h2 : splitWs (strip e2) ≠ []) :
    extractWordTimes "ref" "WordBegin" "WordEnd" (c10Lines r1 s1 r2 s2 e2) =
      Except.ok [(strip r2,
        (splitWs (strip s1) ++ splitWs (strip s2), splitWs (strip e2)))] := by
  have q1 : exStep "ref" "WordBegin" "WordEnd" ⟨[], none, [], []⟩
      ⟨some "ref", some r1⟩ = Except.ok ⟨[], some (strip r1), [], []⟩ := by
    simp [exStep]
  have q2 : exStep "ref" "WordBegin" "WordEnd" ⟨[], some (strip r1), [], []⟩
      ⟨some "WordBegin", some s1⟩ =
      Except.ok ⟨[], some (strip r1), splitWs (strip s1), []⟩ := by
    simp [exStep]
  have q3 : exStep "ref" "WordBegin" "WordEnd"
      ⟨[], some (strip r1), splitWs (strip s1), []⟩ ⟨some "ref", some r2⟩ =
      Except.ok ⟨[], some (strip r2), splitWs (strip s1), []⟩ := by
    simp [exStep]
  have q4 : exStep "ref" "WordBegin" "WordEnd"
      ⟨[], some (strip r2), splitWs (strip s1), []⟩ ⟨some "WordBegin", some s2⟩ =
      Except.ok ⟨[], some (strip r2), splitWs (strip s1) ++ splitWs (strip s2), []⟩ := by
    simp [exStep]
  have q5 : exStep "ref" "WordBegin" "WordEnd"
      ⟨[], some (strip r2), splitWs (strip s1) ++ splitWs (strip s2), []⟩
      ⟨some "WordEnd", some e2⟩ =
      Except.ok ⟨[], some (strip r2), splitWs (strip s1) ++ splitWs (strip s2),
        splitWs (strip e2)⟩ := by
    simp [exStep]
  unfold extractWordTimes c10Lines
  rw [List.foldlM_cons, q1]
  simp only [bind, Except.bind]
  rw [List.foldlM_cons, q2]
  simp only [bind, Except.bind]
  rw [List.foldlM_cons, q3]
  simp only [bind, Except.bind]
  rw [List.foldlM_cons, q4]
  simp only [bind, Except.bind]
  rw [List.foldlM_cons, q5]
  simp only [bind, Except.bind]
  rw [List.foldlM_nil]
  show (if splitWs (strip s1) ++ splitWs (strip s2) ≠ [] ∧ splitWs (strip e2) ≠ [] then
      Except.ok (insertStr (strip r2)
        (splitWs (strip s1) ++ splitWs (strip s2), splitWs (strip e2)) [])
    else Except.ok ([] : List (String × (List String × List String)))) = _
  rw [if_pos ⟨List.append_ne_nil_of_left_ne_nil h1 _, h2⟩]
  simp [insertStr]

/-- Witness for claim C10: concrete records — reference "u1" with only a
start-time line "0.5", then reference "u2" with start line "1.2" and end line
"1.5 2.0"; the result maps "u2" to `(["0.5", "1.2"], ["1.5", "2.0"])` and
omits "u1". -/
theorem extract_incomplete_record_leaks_witness :
    extractWordTimes "ref" "WordBegin" "WordEnd"
      (c10Lines "u1" "0.5" "u2" "1.2" "1.5 2.0") =
      Except.ok [(strip "u2",
        (splitWs (strip "0.5") ++ splitWs (strip "1.2"),
         splitWs (strip "1.5 2.0")))] :=
  extract_incomplete_record_leaks "u1" "u2" "0.5" "1.2" "1.5 2.0"
    (by decide) (by decide)

/-- The start/end times the importer derives for a daughter annotation — a
pure function of the document's static data (graph indices and tabular
source), mirroring the read part of `impStep`. -/
def asgn (D : ImpDoc) (a : Nat) : Option (Nat × Nat) :=
  match lookupKey a D.annParent with
  | none => none
  | some pid =>
    match lookupKey pid D.anns with
    | none => none
    | some pAnn =>
      match lookupKey pid D.parentDaughters with
      | none => none
      | some ds =>
        match lookupStr pAnn.val D.toolbox with
        | none => none
        | some wt =>
          match wt.1[countUntil a (sortNat ds)]? with
          | none => none
          | some sstr =>
            match convertTime sstr with
            | none => none
            | some sa =>
              match wt.2[countUntil a (sortNat ds)]? with
              | none => none
              | some estr =>
                match convertTime estr with
                | none => none
                | some ea => some (sa, ea)

/-- The write sequence of `impStep` (lines 391-413): widen the parent start on
violation, widen the parent end on violation, then set the daughter's own two
slots. -/
def impWrite (pAnn dAnn : ImpAnn) (sa ea : Nat) (ps pe : Int)
    (pool : List (Nat × Option Int)) : Option (List (Nat × Option Int)) :=
  match (if (sa : Int) < ps then poolSet pool pAnn.sSlot sa else some pool) with
  | none => none
  | some pool1 =>
    match (if (ea : Int) > pe then poolSet pool1 pAnn.eSlot ea else some pool1) with
    | none => none
    | some pool2 =>
      match poolSet pool2 dAnn.sSlot sa with
      | none => none
      | some pool3 => poolSet pool3 dAnn.eSlot ea

/-- Setting a slot stores the value at that slot. -/
theorem poolSet_lookup_self {pool pool' : List (Nat × Option Int)} {n : Nat}
    {v : Int} (h : poolSet pool n v = some pool') :
    lookupKey n pool' = some (some v) := by
  induction pool generalizing pool' with
  | nil => simp [poolSet] at h
  | cons hd tl ih =>
    rcases hd with ⟨k, w⟩
    by_cases hk : n = k
    · subst hk
      simp [poolSet] at h
      subst h
      simp [lookupKey]
    · simp only [poolSet, if_neg hk] at h
      rcases hq : poolSet tl n v with _ | tl'
      · rw [hq] at h
        simp at h
      · rw [hq] at h
        simp at h
        subst h
        simp only [lookupKey, if_neg hk]
        exact ih hq

/-- Setting a slot leaves every other slot unchanged. -/
theorem poolSet_lookup_other {pool pool' : List (Nat × Option Int)} {n m : Nat}
    {v : Int} (h : poolSet pool n v = some pool') (hm : m ≠ n) :
    lookupKey m pool' = lookupKey m pool := by
  induction pool generalizing pool' with
  | nil => simp [poolSet] at h
  | cons hd tl ih =>
    rcases hd with ⟨k, w⟩
    by_cases hk : n = k
    · subst hk
      simp [poolSet] at h
      subst h
      simp [lookupKey, hm]
    · simp only [poolSet, if_neg hk] at h
      rcases hq : poolSet tl n v with _ | tl'
      · rw [hq] at h
        simp at h
      · rw [hq] at h
        simp at h
        subst h
        by_cases hmk : m = k
        · simp [lookupKey, hmk]
        · simp only [lookupKey, if_neg hmk]
          exact ih hq

/-- `poolGet` version of `poolSet_lookup_self`. -/
theorem poolGet_poolSet_self {pool pool' : List (Nat × Option Int)} {n : Nat}
    {v : Int} (h : poolSet pool n v = some pool') : poolGet pool' n = some v := by
  unfold poolGet
  rw [poolSet_lookup_self h]

/-- `poolGet` version of `poolSet_lookup_other`. -/
theorem poolGet_poolSet_other {pool pool' : List (Nat × Option Int)} {n m : Nat}
    {v : Int} (h : poolSet pool n v = some pool') (hm : m ≠ n) :
    poolGet pool' m = poolGet pool m := by
  unfold poolGet
  rw [poolSet_lookup_other h hm]

/-- Two distinct annotation ids have fully disjoint boundary slots when the
document's boundary-slot family has no duplicates. -/
theorem slots_disjoint {D : ImpDoc}
    (hsep : (D.anns.flatMap fun p => [p.2.sSlot, p.2.eSlot]).Nodup)
    {x y : Nat} {ax ay : ImpAnn} (hx : lookupKey x D.anns = some ax)
    (hy : lookupKey y D.anns = some ay) (hxy : x ≠ y) :
    ax.sSlot ≠ ay.sSlot ∧ ax.sSlot ≠ ay.eSlot ∧
    ax.eSlot ≠ ay.sSlot ∧ ax.eSlot ≠ ay.eSlot := by
  have hmx := lookupKey_mem x D.anns ax hx
  have hmy := lookupKey_mem y D.anns ay hy
  have hpw := (List.nodup_flatMap.mp hsep).2
  have hdisj := hpw.forall (fun p q h => h.symm) hmx hmy
    (by intro hc; exact hxy (congrArg Prod.fst hc))
  have h1 : ax.sSlot ∈ [ax.sSlot, ax.eSlot] := by simp
  have h2 : ax.eSlot ∈ [ax.sSlot, ax.eSlot] := by simp
  refine ⟨?_, ?_, ?_, ?_⟩ <;> intro hc
  · exact hdisj h1 (by simp [hc])
  · exact hdisj h1 (by simp [hc])
  · exact hdisj h2 (by simp [hc])
  · exact hdisj h2 (by simp [hc])

/-- Each annotation's start and end slots are distinct when the document's
boundary-slot family has no duplicates. -/
theorem slots_distinct_self {D : ImpDoc}
    (hsep : (D.anns.flatMap fun p => [p.2.sSlot, p.2.eSlot]).Nodup)
    {x : Nat} {ax : ImpAnn} (hx : lookupKey x D.anns = some ax) :
    ax.sSlot ≠ ax.eSlot := by
  have hmx := lookupKey_mem x D.anns ax hx
  have hall := (List.nodup_flatMap.mp hsep).1 _ hmx
  simp at hall
  exact hall

/-- Full characterization of a successful importer step: all reads succeed,
the derived values agree with `asgn`, and the new pool is the result of the
widening/assignment write sequence. -/
theorem impStep_ok_spec {D : ImpDoc} {pool pool' : List (Nat × Option Int)}
    {a : Nat} (h : impStep D pool a = Except.ok pool') :
    ∃ dAnn pid pAnn sa ea ps pe,
      lookupKey a D.anns = some dAnn ∧
      lookupKey a D.annParent = some pid ∧
      lookupKey pid D.anns = some pAnn ∧
      asgn D a = some (sa, ea) ∧
      poolGet pool pAnn.sSlot = some ps ∧
      poolGet pool pAnn.eSlot = some pe ∧
      impWrite pAnn dAnn sa ea ps pe pool = some pool' := by
  unfold impStep at h
  obtain ⟨dAnn, h1⟩ : ∃ x, lookupKey a D.anns = some x := by
    rcases hq : lookupKey a D.anns with _ | x
    · rw [hq] at h; simp at h
    · exact ⟨x, rfl⟩
  simp only [h1] at h
  obtain ⟨pid, h2⟩ : ∃ x, lookupKey a D.annParent = some x := by
    rcases hq : lookupKey a D.annParent with _ | x
    · rw [hq] at h; simp at h
    · exact ⟨x, rfl⟩
  simp only [h2] at h
  obtain ⟨pAnn, h3⟩ : ∃ x, lookupKey pid D.anns = some x := by
    rcases hq : lookupKey pid D.anns with _ | x
    · rw [hq] at h; simp at h
    · exact ⟨x, rfl⟩
  simp only [h3] at h
  obtain ⟨ds, h4⟩ : ∃ x, lookupKey pid D.parentDaughters = some x := by
    rcases hq : lookupKey pid D.parentDaughters with _ | x
    · rw [hq] at h; simp at h
    · exact ⟨x, rfl⟩
  simp only [h4] at h
  obtain ⟨wt, h5⟩ : ∃ x, lookupStr pAnn.val D.toolbox = some x := by
    rcases hq : lookupStr pAnn.val D.toolbox with _ | x
    · rw [hq] at h; simp at h
    · exact ⟨x, rfl⟩
  simp only [h5] at h
  obtain ⟨sstr, h6⟩ : ∃ x, wt.1[countUntil a (sortNat ds)]? = some x := by
    rcases hq : wt.1[countUntil a (sortNat ds)]? with _ | x
    · rw [hq] at h; simp at h
    · exact ⟨x, rfl⟩
  simp only [h6] at h
  obtain ⟨sa, h7⟩ : ∃ x, convertTime sstr = some x := by
    rcases hq : convertTime sstr with _ | x
    · rw [hq] at h; simp at h
    · exact ⟨x, rfl⟩
  simp only [h7] at h
  obtain ⟨estr, h8⟩ : ∃ x, wt.2[countUntil a (sortNat ds)]? = some x := by
    rcases hq : wt.2[countUntil a (sortNat ds)]? with _ | x
    · rw [hq] at h; simp at h
    · exact ⟨x, rfl⟩
  simp only [h8] at h
  obtain ⟨ea, h9⟩ : ∃ x, convertTime estr = some x := by
    rcases hq : convertTime estr with _ | x
    · rw [hq] at h; simp at h
    · exact ⟨x, rfl⟩
  simp only [h9] at h
  obtain ⟨ps, h10⟩ : ∃ x, poolGet pool pAnn.sSlot = some x := by
    rcases hq : poolGet pool pAnn.sSlot with _ | x
    · rw [hq] at h; simp at h
    · exact ⟨x, rfl⟩
  simp only [h10] at h
  obtain ⟨pool1, w1⟩ :
      ∃ x, (if (sa : Int) < ps then poolSet pool pAnn.sSlot sa else some pool) = some x := by
    rcases hq : (if (sa : Int) < ps then poolSet pool pAnn.sSlot sa else some pool) with _ | x
    · rw [hq] at h; simp at h
    · exact ⟨x, rfl⟩
  simp only [w1] at h
  obtain ⟨pe, h11⟩ : ∃ x, poolGet pool pAnn.eSlot = some x := by
    rcases hq : poolGet pool pAnn.eSlot with _ | x
    · rw [hq] at h; simp at h
    · exact ⟨x, rfl⟩
  simp only [h11] at h
  obtain ⟨pool2, w2⟩ :
      ∃ x, (if (ea : Int) > pe then poolSet pool1 pAnn.eSlot ea else some pool1) = some x := by
    rcases hq : (if (ea : Int) > pe then poolSet pool1 pAnn.eSlot ea else some pool1) with _ | x
    · rw [hq] at h; simp at h
    · exact ⟨x, rfl⟩
  simp only [w2] at h
  obtain ⟨pool3, w3⟩ : ∃ x, poolSet pool2 dAnn.sSlot sa = some x := by
    rcases hq : poolSet pool2 dAnn.sSlot (sa : Int) with _ | x
    · rw [hq] at h; simp at h
    · exact ⟨x, rfl⟩
  simp only [w3] at h
  obtain ⟨pool4, w4⟩ : ∃ x, poolSet pool3 dAnn.eSlot ea = some x := by
    rcases hq : poolSet pool3 dAnn.eSlot (ea : Int) with _ | x
    · rw [hq] at h; simp at h
    · exact ⟨x, rfl⟩
  simp only [w4] at h
  simp only [Except.ok.injEq] at h
  subst h
  refine ⟨dAnn, pid, pAnn, sa, ea, ps, pe, h1, h2, h3, ?_, h10, h11, ?_⟩
  · unfold asgn
    simp only [h2, h3, h4, h5, h6, h7, h8, h9]
  · unfold impWrite
    simp only [w1, w2, w3]
    exact w4

/-- Lookups are functional. -/
theorem lookup_det {β : Type} {k : Nat} {m : List (Nat × β)} {v w : β}
    (hv : lookupKey k m = some v) (hw : lookupKey k m = some w) : v = w := by
  rw [hv] at hw
  injection hw

/-- A conditional widening write leaves other slots unchanged. -/
theorem optSet_lookup_other {pool pool' : List (Nat × Option Int)} {n m : Nat}
    {v : Int} {c : Prop} [Decidable c]
    (h : (if c then poolSet pool n v else some pool) = some pool') (hm : m ≠ n) :
    lookupKey m pool' = lookupKey m pool := by
  by_cases hc : c
  · rw [if_pos hc] at h
    exact poolSet_lookup_other h hm
  · rw [if_neg hc] at h
    injection h with h
    subst h
    rfl

/-- A conditional widening write updates the written slot to the conditional
value. -/
theorem optSet_get_self {pool pool' : List (Nat × Option Int)} {n : Nat}
    {v w : Int} {c : Prop} [Decidable c]
    (h : (if c then poolSet pool n v else some pool) = some pool')
    (hw : poolGet pool n = some w) :
    poolGet pool' n = some (if c then v else w) := by
  by_cases hc : c
  · rw [if_pos hc] at h
    rw [if_pos hc]
    exact poolGet_poolSet_self h
  · rw [if_neg hc] at h
    rw [if_neg hc]
    injection h with h
    subst h
    exact hw

/-- Slot `n` belongs to the boundary slots of a processed daughter or of its
parent. -/
def touchedBy (D : ImpDoc) (processed : List Nat) (n : Nat) : Prop :=
  ∃ a ∈ processed, ∃ dAnn pid pAnn,
    lookupKey a D.anns = some dAnn ∧ lookupKey a D.annParent = some pid ∧
    lookupKey pid D.anns = some pAnn ∧
    (n = dAnn.sSlot ∨ n = dAnn.eSlot ∨ n = pAnn.sSlot ∨ n = pAnn.eSlot)

/-- State of one parent's boundary slots after processing `processed`: the
current values only ever widen the initial interval, each strict change is
attributable to a violating processed daughter of this parent, and every
processed daughter of this parent lies inside the current interval. -/
def ParentClause (D : ImpDoc) (processed : List Nat)
    (pool : List (Nat × Option Int)) (pid : Nat) (pAnn : ImpAnn) : Prop :=
  ∃ ps0 pe0 ps pe,
    poolGet D.pool pAnn.sSlot = some ps0 ∧ poolGet D.pool pAnn.eSlot = some pe0 ∧
    poolGet pool pAnn.sSlot = some ps ∧ poolGet pool pAnn.eSlot = some pe ∧
    ps ≤ ps0 ∧ pe0 ≤ pe ∧
    (ps = ps0 ∨ ∃ b ∈ processed, ∃ sb eb : Nat, lookupKey b D.annParent = some pid ∧
      asgn D b = some (sb, eb) ∧ (sb : Int) = ps ∧ (sb : Int) < ps0) ∧
    (pe = pe0 ∨ ∃ b ∈ processed, ∃ sb eb : Nat, lookupKey b D.annParent = some pid ∧
      asgn D b = some (sb, eb) ∧ (eb : Int) = pe ∧ pe0 < (eb : Int)) ∧
    (∀ b ∈ processed, lookupKey b D.annParent = some pid →
      ∀ sb eb : Nat, asgn D b = some (sb, eb) → ps ≤ (sb : Int) ∧ (eb : Int) ≤ pe)

/-- The invariant of the importer's assignment loop: untouched slots keep
their initial value, every processed daughter's slots hold its statically
derived times, and every parent of a processed daughter satisfies
`ParentClause`. -/
def ImpInv (D : ImpDoc) (processed : List Nat)
    (pool : List (Nat × Option Int)) : Prop :=
  (∀ n : Nat, ¬ touchedBy D processed n → lookupKey n pool = lookupKey n D.pool) ∧
  (∀ a ∈ processed, ∀ dAnn, lookupKey a D.anns = some dAnn →
    ∃ sa ea : Nat, asgn D a = some (sa, ea) ∧
      poolGet pool dAnn.sSlot = some (sa : Int) ∧
      poolGet pool dAnn.eSlot = some (ea : Int)) ∧
  (∀ a ∈ processed, ∀ pid pAnn, lookupKey a D.annParent = some pid →
    lookupKey pid D.anns = some pAnn → ParentClause D processed pool pid pAnn)

/-- One importer step preserves the invariant, extending the processed list by
the stepped daughter. -/
theorem impInv_step (D : ImpDoc)
    (hsep : (D.anns.flatMap fun p => [p.2.sSlot, p.2.eSlot]).Nodup)
    (hdp : ∀ b ∈ D.daughters, ∀ x ∈ D.daughters, ∀ pid,
      lookupKey x D.annParent = some pid → b ≠ pid)
    {processed : List Nat} {pool pool' : List (Nat × Option Int)} {a : Nat}
    (hsub : ∀ b ∈ processed, b ∈ D.daughters) (ha : a ∈ D.daughters)
    (hstep : impStep D pool a = Except.ok pool')
    (hinv : ImpInv D processed pool) :
    ImpInv D (processed ++ [a]) pool' := by
  obtain ⟨dAnn, pid, pAnn, sa, ea, ps, pe, h1, h2, h3, hasgn, hps, hpe, hwr⟩ :=
    impStep_ok_spec hstep
  obtain ⟨hU, hD, hP⟩ := hinv
  have hbpid : ∀ b ∈ D.daughters, b ≠ pid := fun b hb => hdp b hb a ha pid h2
  have hanp : a ≠ pid := hbpid a ha
  have hd4 := slots_disjoint hsep h1 h3 hanp
  have hdss : dAnn.sSlot ≠ dAnn.eSlot := slots_distinct_self hsep h1
  have hpss : pAnn.sSlot ≠ pAnn.eSlot := slots_distinct_self hsep h3
  unfold impWrite at hwr
  obtain ⟨pool1, w1⟩ :
      ∃ x, (if (sa : Int) < ps then poolSet pool pAnn.sSlot sa else some pool) = some x := by
    rcases hq : (if (sa : Int) < ps then poolSet pool pAnn.sSlot (sa : Int) else some pool) with _ | x
    · rw [hq] at hwr
      simp at hwr
    · exact ⟨x, rfl⟩
  simp only [w1] at hwr
  obtain ⟨pool2, w2⟩ :
      ∃ x, (if (ea : Int) > pe then poolSet pool1 pAnn.eSlot ea else some pool1) = some x := by
    rcases hq : (if (ea : Int) > pe then poolSet pool1 pAnn.eSlot (ea : Int) else some pool1) with _ | x
    · rw [hq] at hwr
      simp at hwr
    · exact ⟨x, rfl⟩
  simp only [w2] at hwr
  obtain ⟨pool3, w3⟩ : ∃ x, poolSet pool2 dAnn.sSlot (sa : Int) = some x := by
    rcases hq : poolSet pool2 dAnn.sSlot (sa : Int) with _ | x
    · rw [hq] at hwr
      simp at hwr
    · exact ⟨x, rfl⟩
  simp only [w3] at hwr
  have hoth : ∀ m, m ≠ dAnn.sSlot → m ≠ dAnn.eSlot → m ≠ pAnn.sSlot → m ≠ pAnn.eSlot →
      lookupKey m pool' = lookupKey m pool := by
    intro m hm1 hm2 hm3 hm4
    rw [poolSet_lookup_other hwr hm2, poolSet_lookup_other w3 hm1,
      optSet_lookup_other w2 hm4, optSet_lookup_other w1 hm3]
  have hothget : ∀ m, m ≠ dAnn.sSlot → m ≠ dAnn.eSlot → m ≠ pAnn.sSlot → m ≠ pAnn.eSlot →
      poolGet pool' m = poolGet pool m := by
    intro m hm1 hm2 hm3 hm4
    unfold poolGet
    rw [hoth m hm1 hm2 hm3 hm4]
  have hfde : poolGet pool' dAnn.eSlot = some (ea : Int) := poolGet_poolSet_self hwr
  have hfds : poolGet pool' dAnn.sSlot = some (sa : Int) := by
    rw [poolGet_poolSet_other hwr hdss]
    exact poolGet_poolSet_self w3
  have hfps : poolGet pool' pAnn.sSlot =
      some (if (sa : Int) < ps then (sa : Int) else ps) := by
    rw [poolGet_poolSet_other hwr hd4.2.2.1.symm,
      poolGet_poolSet_other w3 hd4.1.symm]
    have hp2 : poolGet pool2 pAnn.sSlot = poolGet pool1 pAnn.sSlot := by
      unfold poolGet
      rw [optSet_lookup_other w2 hpss]
    rw [hp2]
    exact optSet_get_self w1 hps
  have hfpe : poolGet pool' pAnn.eSlot =
      some (if (ea : Int) > pe then (ea : Int) else pe) := by
    rw [poolGet_poolSet_other hwr hd4.2.2.2.symm,
      poolGet_poolSet_other w3 hd4.2.1.symm]
    apply optSet_get_self w2
    have hp1 : poolGet pool1 pAnn.eSlot = poolGet pool pAnn.eSlot := by
      unfold poolGet
      rw [optSet_lookup_other w1 hpss.symm]
    rw [hp1]
    exact hpe
  have hps1_le : (if (sa : Int) < ps then (sa : Int) else ps) ≤ ps := by
    by_cases hc : (sa : Int) < ps
    · rw [if_pos hc]
      exact le_of_lt hc
    · rw [if_neg hc]
  have hps1_le_sa : (if (sa : Int) < ps then (sa : Int) else ps) ≤ (sa : Int) := by
    by_cases hc : (sa : Int) < ps
    · rw [if_pos hc]
    · rw [if_neg hc]
      omega
  have hpe2_ge : pe ≤ (if (ea : Int) > pe then (ea : Int) else pe) := by
    by_cases hc : (ea : Int) > pe
    · rw [if_pos hc]
      exact le_of_lt hc
    · rw [if_neg hc]
  have hpe2_ge_ea : (ea : Int) ≤ (if (ea : Int) > pe then (ea : Int) else pe) := by
    by_cases hc : (ea : Int) > pe
    · rw [if_pos hc]
    · rw [if_neg hc]
      omega
  refine ⟨?_, ?_, ?_⟩
  · -- untouched slots
    intro n hn
    have h4 : n ≠ dAnn.sSlot ∧ n ≠ dAnn.eSlot ∧ n ≠ pAnn.sSlot ∧ n ≠ pAnn.eSlot := by
      refine ⟨?_, ?_, ?_, ?_⟩ <;> intro hc <;>
        exact hn ⟨a, List.mem_append_right _ (List.mem_singleton_self a), dAnn, pid, pAnn,
          h1, h2, h3, by simp [hc]⟩
    rw [hoth n h4.1 h4.2.1 h4.2.2.1 h4.2.2.2]
    apply hU
    rintro ⟨b, hb, rest⟩
    exact hn ⟨b, List.mem_append_left _ hb, rest⟩
  · -- processed daughters hold their derived times
    intro b hb dAnnb hb1
    by_cases hba : b = a
    · subst hba
      have hde : dAnnb = dAnn := lookup_det hb1 h1
      subst hde
      exact ⟨sa, ea, hasgn, hfds, hfde⟩
    · have hbp : b ∈ processed := by
        rcases List.mem_append.mp hb with hq | hq
        · exact hq
        · simp at hq
          exact absurd hq hba
      obtain ⟨sb, eb, hasb, hvs, hve⟩ := hD b hbp dAnnb hb1
      have hdb := slots_disjoint hsep hb1 h1 hba
      have hbnotpid : b ≠ pid := hbpid b (hsub b hbp)
      have hdbp := slots_disjoint hsep hb1 h3 hbnotpid
      refine ⟨sb, eb, hasb, ?_, ?_⟩
      · rw [hothget dAnnb.sSlot hdb.1 hdb.2.1 hdbp.1 hdbp.2.1]
        exact hvs
      · rw [hothget dAnnb.eSlot hdb.2.2.1 hdb.2.2.2 hdbp.2.2.1 hdbp.2.2.2]
        exact hve
  · -- parent clauses
    intro b hb pidb pAnnb hb2 hb3
    by_cases hpidb : pidb = pid
    · rw [hpidb] at hb2 hb3
      have hpe3 : pAnnb = pAnn := lookup_det hb3 h3
      rw [hpidb, hpe3]
      have hpc : ParentClause D processed pool pid pAnn := by
        by_cases hact : ∃ b0 ∈ processed, lookupKey b0 D.annParent = some pid
        · obtain ⟨b0, hb0m, hb0p⟩ := hact
          exact hP b0 hb0m pid pAnn hb0p h3
        · have hnt : ∀ m, m = pAnn.sSlot ∨ m = pAnn.eSlot → ¬ touchedBy D processed m := by
            rintro m hm ⟨c, hcm, dAnnc, pidc, pAnnc, hc1, hc2, hc3, hor⟩
            have hcd : c ∈ D.daughters := hsub c hcm
            have hcnp : c ≠ pid := hbpid c hcd
            have hdc := slots_disjoint hsep hc1 h3 hcnp
            by_cases hpcb : pidc = pid
            · exact hact ⟨c, hcm, hpcb ▸ hc2⟩
            · have hpcd := slots_disjoint hsep hc3 h3 hpcb
              rcases hm with hm | hm <;> subst hm <;>
                rcases hor with hor | hor | hor | hor
              · exact hdc.1 hor.symm
              · exact hdc.2.2.1 hor.symm
              · exact hpcd.1 hor.symm
              · exact hpcd.2.2.1 hor.symm
              · exact hdc.2.1 hor.symm
              · exact hdc.2.2.2 hor.symm
              · exact hpcd.2.1 hor.symm
              · exact hpcd.2.2.2 hor.symm
          have his : poolGet D.pool pAnn.sSlot = some ps := by
            have heq := hU pAnn.sSlot (hnt pAnn.sSlot (Or.inl rfl))
            unfold poolGet at hps ⊢
            rw [← heq]
            exact hps
          have hie : poolGet D.pool pAnn.eSlot = some pe := by
            have heq := hU pAnn.eSlot (hnt pAnn.eSlot (Or.inr rfl))
            unfold poolGet at hpe ⊢
            rw [← heq]
            exact hpe
          exact ⟨ps, pe, ps, pe, his, hie, hps, hpe, le_refl ps, le_refl pe,
            Or.inl rfl, Or.inl rfl,
            fun b0 hb0 hb0p _ _ _ => absurd ⟨b0, hb0, hb0p⟩ hact⟩
      obtain ⟨ps0, pe0, psc, pec, hi0s, hi0e, hics, hice, hle1, hle2, hdis1, hdis2, hbnd⟩ := hpc
      have hpsc : psc = ps := by
        rw [hps] at hics
        injection hics with hics
        exact hics.symm
      have hpec : pec = pe := by
        rw [hpe] at hice
        injection hice with hice
        exact hice.symm
      rw [hpsc] at hle1 hdis1 hbnd
      rw [hpec] at hle2 hdis2 hbnd
      refine ⟨ps0, pe0, (if (sa : Int) < ps then (sa : Int) else ps),
        (if (ea : Int) > pe then (ea : Int) else pe), hi0s, hi0e, hfps, hfpe,
        le_trans hps1_le hle1, le_trans hle2 hpe2_ge, ?_, ?_, ?_⟩
      · by_cases hc : (sa : Int) < ps
        · refine Or.inr ⟨a, List.mem_append_right _ (List.mem_singleton_self a),
            sa, ea, h2, hasgn, ?_, ?_⟩
          · rw [if_pos hc]
          · exact lt_of_lt_of_le hc hle1
        · rw [if_neg hc]
          rcases hdis1 with hq | ⟨b0, hb0m, sb, eb, hb0p, hb0a, hb0v, hb0lt⟩
          · exact Or.inl hq
          · exact Or.inr ⟨b0, List.mem_append_left _ hb0m, sb, eb, hb0p, hb0a, hb0v, hb0lt⟩
      · by_cases hc : (ea : Int) > pe
        · refine Or.inr ⟨a, List.mem_append_right _ (List.mem_singleton_self a),
            sa, ea, h2, hasgn, ?_, ?_⟩
          · rw [if_pos hc]
          · exact lt_of_le_of_lt hle2 hc
        · rw [if_neg hc]
          rcases hdis2 with hq | ⟨b0, hb0m, sb, eb, hb0p, hb0a, hb0v, hb0lt⟩
          · exact Or.inl hq
          · exact Or.inr ⟨b0, List.mem_append_left _ hb0m, sb, eb, hb0p, hb0a, hb0v, hb0lt⟩
      · intro c hc hcp sc ec hca
        rcases List.mem_append.mp hc with hcm | hcm
        · obtain ⟨hc1', hc2'⟩ := hbnd c hcm hcp sc ec hca
          exact ⟨le_trans hps1_le hc1', le_trans hc2' hpe2_ge⟩
        · simp at hcm
          subst hcm
          rw [hasgn] at hca
          injection hca with hca
          have hsc : sc = sa := by
            have := congrArg Prod.fst hca
            simpa using this.symm
          have hec : ec = ea := by
            have := congrArg Prod.snd hca
            simpa using this.symm
          subst hsc
          subst hec
          exact ⟨hps1_le_sa, hpe2_ge_ea⟩
    · have hbp : b ∈ processed := by
        rcases List.mem_append.mp hb with hq | hq
        · exact hq
        · simp at hq
          subst hq
          exact absurd (lookup_det hb2 h2) hpidb
      obtain ⟨ps0, pe0, psc, pec, hi0s, hi0e, hics, hice, hle1, hle2, hdis1, hdis2, hbnd⟩ :=
        hP b hbp pidb pAnnb hb2 hb3
      have hna : a ≠ pidb := hdp a ha b (hsub b hbp) pidb hb2
      have hdan := slots_disjoint hsep h1 hb3 hna
      have hpan := slots_disjoint hsep h3 hb3 (fun hc => hpidb hc.symm)
      refine ⟨ps0, pe0, psc, pec, hi0s, hi0e, ?_, ?_, hle1, hle2, ?_, ?_, ?_⟩
      · rw [hothget pAnnb.sSlot hdan.1.symm hdan.2.2.1.symm hpan.1.symm hpan.2.2.1.symm]
        exact hics
      · rw [hothget pAnnb.eSlot hdan.2.1.symm hdan.2.2.2.symm hpan.2.1.symm hpan.2.2.2.symm]
        exact hice
      · rcases hdis1 with hq | ⟨b0, hb0m, sb, eb, hb0p, hb0a, hb0v, hb0lt⟩
        · exact Or.inl hq
        · exact Or.inr ⟨b0, List.mem_append_left _ hb0m, sb, eb, hb0p, hb0a, hb0v, hb0lt⟩
      · rcases hdis2 with hq | ⟨b0, hb0m, sb, eb, hb0p, hb0a, hb0v, hb0lt⟩
        · exact Or.inl hq
        · exact Or.inr ⟨b0, List.mem_append_left _ hb0m, sb, eb, hb0p, hb0a, hb0v, hb0lt⟩
      · intro c hc hcp sc ec hca
        rcases List.mem_append.mp hc with hcm | hcm
        · exact hbnd c hcm hcp sc ec hca
        · simp at hcm
          subst hcm
          exact absurd (lookup_det hcp h2) hpidb

/-- Folding the importer step over a daughter list preserves the invariant. -/
theorem impInv_run (D : ImpDoc)
    (hsep : (D.anns.flatMap fun p => [p.2.sSlot, p.2.eSlot]).Nodup)
    (hdp : ∀ b ∈ D.daughters, ∀ x ∈ D.daughters, ∀ pid,
      lookupKey x D.annParent = some pid → b ≠ pid) :
    ∀ (rest processed : List Nat) (pool res : List (Nat × Option Int)),
      (∀ b ∈ processed, b ∈ D.daughters) → (∀ b ∈ rest, b ∈ D.daughters) →
      ImpInv D processed pool →
      rest.foldlM (impStep D) pool = Except.ok res →
      ImpInv D (processed ++ rest) res
  | [], processed, pool, res, _, _, hinv, hrun => by
      rw [List.foldlM_nil] at hrun
      injection hrun with hrun
      subst hrun
      simpa using hinv
  | a :: rest, processed, pool, res, hsubp, hsubr, hinv, hrun => by
      rw [List.foldlM_cons] at hrun
      rcases hs : impStep D pool a with e | pool1
      · rw [hs] at hrun
        simp [bind, Except.bind] at hrun
      · rw [hs] at hrun
        simp only [bind, Except.bind] at hrun
        have hinv1 := impInv_step D hsep hdp hsubp (hsubr a (by simp)) hs hinv
        have hrec := impInv_run D hsep hdp rest (processed ++ [a]) pool1 res
          (fun b hb => by
            rcases List.mem_append.mp hb with hq | hq
            · exact hsubp b hq
            · simp at hq
              subst hq
              exact hsubr b (by simp))
          (fun b hb => hsubr b (List.mem_cons_of_mem _ hb)) hinv1 hrun
        rw [List.append_assoc] at hrec
        simpa using hrec

/-- Claim C5, as a predicate on the final pool: every daughter annotation with
a resolved parent ends inside the parent's final interval; the parent's
interval only ever widened relative to its initial one, and each strict change
of a parent boundary is the value of some violating daughter of that parent
(no violation — no change). -/
def ContainmentOK (D : ImpDoc) (pool' : List (Nat × Option Int)) : Prop :=
  ∀ a ∈ D.daughters, ∀ dAnn pid pAnn,
    lookupKey a D.anns = some dAnn → lookupKey a D.annParent = some pid →
    lookupKey pid D.anns = some pAnn →
    ∃ sv ev ps pe ps0 pe0 : Int,
      poolGet pool' dAnn.sSlot = some sv ∧ poolGet pool' dAnn.eSlot = some ev ∧
      poolGet pool' pAnn.sSlot = some ps ∧ poolGet pool' pAnn.eSlot = some pe ∧
      poolGet D.pool pAnn.sSlot = some ps0 ∧ poolGet D.pool pAnn.eSlot = some pe0 ∧
      ps ≤ sv ∧ ev ≤ pe ∧
      ps ≤ ps0 ∧ pe0 ≤ pe ∧
      (ps = ps0 ∨ ∃ b ∈ D.daughters, ∃ sb eb : Nat,
        lookupKey b D.annParent = some pid ∧ asgn D b = some (sb, eb) ∧
        (sb : Int) = ps ∧ (sb : Int) < ps0) ∧
      (pe = pe0 ∨ ∃ b ∈ D.daughters, ∃ sb eb : Nat,
        lookupKey b D.annParent = some pid ∧ asgn D b = some (sb, eb) ∧
        (eb : Int) = pe ∧ pe0 < (eb : Int))

/-- Claim C5: after a successful importer run on a document whose annotation
boundary slots are pairwise distinct (a disambiguated document) and in which
no daughter annotation doubles as a parent, every daughter lies inside its
parent's final interval (`p.start ≤ d.start` and `d.end ≤ p.end`); the parent
was only ever widened (final start ≤ initial start, final end ≥ initial end),
and any strict widening equals the value of an observed violating child
(`import_wordtimes_from_toolbox_to_elan.py`, lines 331-429, widening at
391-405). -/
theorem importer_containment (D : ImpDoc) (pool' : List (Nat × Option Int))
    (hrun : runImp D = Except.ok pool')
    (hsep : (D.anns.flatMap fun p => [p.2.sSlot, p.2.eSlot]).Nodup)
    (hdp2 : ∀ b ∈ D.daughters, ∀ q ∈ D.annParent, b ≠ q.2) :
    ContainmentOK D pool' := by
  have hdp : ∀ b ∈ D.daughters, ∀ x ∈ D.daughters, ∀ pid,
      lookupKey x D.annParent = some pid → b ≠ pid :=
    fun b hb x _ pid hx => hdp2 b hb (x, pid) (lookupKey_mem x D.annParent pid hx)
  have hbase : ImpInv D [] D.pool :=
    ⟨fun _ _ => rfl, fun a ha => absurd ha (List.not_mem_nil a),
      fun a ha => absurd ha (List.not_mem_nil a)⟩
  have hfinal : ImpInv D ([] ++ D.daughters) pool' :=
    impInv_run D hsep hdp D.daughters [] D.pool pool'
      (fun b hb => absurd hb (List.not_mem_nil b)) (fun _ hb => hb) hbase hrun
  rw [List.nil_append] at hfinal
  obtain ⟨_, hD, hP⟩ := hfinal
  intro a ha dAnn pid pAnn h1 h2 h3
  obtain ⟨sa, ea, hasgn, hvs, hve⟩ := hD a ha dAnn h1
  obtain ⟨ps0, pe0, ps, pe, hi0s, hi0e, hcs, hce, hle1, hle2, hdis1, hdis2, hbnd⟩ :=
    hP a ha pid pAnn h2 h3
  obtain ⟨hb1, hb2⟩ := hbnd a ha h2 sa ea hasgn
  exact ⟨sa, ea, ps, pe, ps0, pe0, hvs, hve, hcs, hce, hi0s, hi0e, hb1, hb2,
    hle1, hle2, hdis1, hdis2⟩

/-- A document exercising both widenings: parent `ann10` (reference "r") with
initial interval [1000, 2000], single daughter `ann1` whose tabular times are
0.500 and 2.500 — both outside the parent. -/
def c5doc : ImpDoc :=
  { anns := [(10, ⟨"r", 100, 101⟩), (1, ⟨"w", 102, 103⟩)],
    annParent := [(1, 10)],
    parentDaughters := [(10, [1])],
    toolbox := [("r", (["0.500"], ["2.500"]))],
    daughters := [1],
    pool := [(100, some 1000), (101, some 2000), (102, some 0), (103, some 0)] }

/-- Witness for claim C5: the run on `c5doc` succeeds (widening the parent to
[500, 2500]) and the containment conclusion holds for its final pool. -/
theorem importer_containment_witness :
    ContainmentOK c5doc
      [(100, some 500), (101, some 2500), (102, some 500), (103, some 2500)] :=
  importer_containment c5doc
    [(100, some 500), (101, some 2500), (102, some 500), (103, some 2500)]
    (by decide) (by decide) (by decide)

end LangDoc
